import Mathlib

/-!
Shallow embedding of the plan-rewriting and executor-compilation core of a
columnar SQL query engine (binder table resolution, input-reference
resolution pass, physical plan nodes, executor builder, accumulators),
together with theorems checking the specification's claims against it.
-/

set_option maxRecDepth 4000

namespace SQE

/-- Arrow data types used by the engine (subset actually exercised). -/
inductive DataType
  | int32
  | int64
  | boolean
  | utf8
deriving DecidableEq, Repr

/-- `ScalarValue` from `src/types`: a typed, nullable scalar constant. -/
inductive ScalarValue
  | int32 (v : Option Int)
  | int64 (v : Option Int)
  | boolean (v : Option Bool)
  | utf8 (v : Option String)
deriving DecidableEq, Repr

/-- The declared data type of a scalar value. -/
def ScalarValue.data_type : ScalarValue → DataType
  | .int32 _ => .int32
  | .int64 _ => .int64
  | .boolean _ => .boolean
  | .utf8 _ => .utf8

/-- Binary operators from `sqlparser::ast::BinaryOperator` (subset). -/
inductive BinaryOperator
  | plus
  | eq
  | gt
deriving DecidableEq, Repr

/-- `ColumnDesc`: a column's name and declared data type. -/
structure ColumnDesc where
  name : String
  data_type : DataType
deriving DecidableEq, Repr

/-- `ColumnCatalog`: column identity (id) plus its descriptor. -/
structure ColumnCatalog where
  id : String
  desc : ColumnDesc
deriving DecidableEq, Repr

/-- Aggregate function kinds (`AggFunc` in the binder). -/
inductive AggFunc
  | count
  | sum
  | min
  | max
deriving DecidableEq, Repr

/-- `BoundExpr`: the bound scalar expression model. Equality is structural
(the Rust type derives `PartialEq`), which the input-reference pass relies
on to locate an expression inside a binding list. -/
inductive BoundExpr
  | constant (value : ScalarValue)
  | columnRef (column_catalog : ColumnCatalog)
  | inputRef (index : Nat) (return_type : DataType)
  | binaryOp (op : BinaryOperator) (left : BoundExpr) (right : BoundExpr)
      (return_type : Option DataType)
  | typeCast (expr : BoundExpr) (cast_type : DataType)
  | aggFunc (func : AggFunc) (exprs : List BoundExpr) (return_type : DataType)
deriving Repr

mutual

/-- Structural equality test on bound expressions (the Rust `PartialEq`). -/
def BoundExpr.beq : BoundExpr → BoundExpr → Bool
  | .constant a, .constant b => decide (a = b)
  | .columnRef a, .columnRef b => decide (a = b)
  | .inputRef i1 t1, .inputRef i2 t2 => decide (i1 = i2) && decide (t1 = t2)
  | .binaryOp o1 l1 r1 t1, .binaryOp o2 l2 r2 t2 =>
      decide (o1 = o2) && BoundExpr.beq l1 l2 && BoundExpr.beq r1 r2 && decide (t1 = t2)
  | .typeCast e1 t1, .typeCast e2 t2 => BoundExpr.beq e1 e2 && decide (t1 = t2)
  | .aggFunc f1 es1 t1, .aggFunc f2 es2 t2 =>
      decide (f1 = f2) && BoundExpr.beqList es1 es2 && decide (t1 = t2)
  | _, _ => false

/-- Structural equality test on lists of bound expressions. -/
def BoundExpr.beqList : List BoundExpr → List BoundExpr → Bool
  | [], [] => true
  | a :: as, b :: bs => BoundExpr.beq a b && BoundExpr.beqList as bs
  | _, _ => false

end

mutual

theorem BoundExpr.beq_iff : ∀ a b : BoundExpr, BoundExpr.beq a b = true ↔ a = b
  | .constant a, b => by
    cases b <;> simp [BoundExpr.beq]
  | .columnRef a, b => by
    cases b <;> simp [BoundExpr.beq]
  | .inputRef i1 t1, b => by
    cases b <;> simp [BoundExpr.beq]
  | .binaryOp o1 l1 r1 t1, b => by
    cases b <;> simp [BoundExpr.beq, BoundExpr.beq_iff l1, BoundExpr.beq_iff r1] <;> tauto
  | .typeCast e1 t1, b => by
    cases b <;> simp [BoundExpr.beq, BoundExpr.beq_iff e1]
  | .aggFunc f1 es1 t1, b => by
    cases b <;> simp [BoundExpr.beq, BoundExpr.beqList_iff es1] <;> tauto

theorem BoundExpr.beqList_iff : ∀ a b : List BoundExpr, BoundExpr.beqList a b = true ↔ a = b
  | [], b => by cases b <;> simp [BoundExpr.beqList]
  | a :: as, b => by
    cases b <;> simp [BoundExpr.beqList, BoundExpr.beq_iff a, BoundExpr.beqList_iff as]

end

instance : DecidableEq BoundExpr := fun a b =>
  decidable_of_iff (BoundExpr.beq a b = true) (BoundExpr.beq_iff a b)

/-- Modelled from the spec: `BoundExpr::return_type` (the expression model
file is not under `src/`). "Every variant exposes its result type": a
constant exposes its value's type, a column reference its column's declared
type, an input reference / cast / aggregate carry their type, and a binary
operation carries an optional result type (seen as `Option` in the source's
tests). -/
def BoundExpr.return_type : BoundExpr → Option DataType
  | .constant v => some v.data_type
  | .columnRef c => some c.desc.data_type
  | .inputRef _ t => some t
  | .binaryOp _ _ _ t => t
  | .typeCast _ t => some t
  | .aggFunc _ _ t => some t

/-- First index of a structurally equal entry in a binding list
(`self.bindings.iter().position(|e| *e == expr.clone())`). -/
def findBinding (bindings : List BoundExpr) (e : BoundExpr) : Option Nat :=
  bindings.findIdx? (fun b => decide (b = e))

mutual

/-- `ExprRewriter::rewrite_expr` specialised to `InputRefRewriter`
(`src/optimizer/input_ref_rewriter.rs` lines 45-61): the dispatch calls
`rewrite_internal` for column refs, type casts, binary ops and aggregate
calls, and leaves constants and input refs untouched (the trait's default
no-op operations, modelled from the spec). `rewrite_internal`'s body is
inlined into each dispatch arm to keep the recursion structural; the
separate definition `rewriteInternal` below restates it verbatim and
`rewriteExpr_eq_rewriteInternal` proves the two agree. `none` models the
source's panics (`unreachable!` for an unresolvable expression, `unwrap`
on a missing return type). -/
def rewriteExpr (bindings : List BoundExpr) : BoundExpr → Option BoundExpr
  | .constant v => some (.constant v)
  | .inputRef i t => some (.inputRef i t)
  | .columnRef c =>
    match findBinding bindings (.columnRef c) with
    | some idx =>
        (BoundExpr.return_type (.columnRef c)).map (fun t => .inputRef idx t)
    | none => none
  | .binaryOp op l r t =>
    match findBinding bindings (.binaryOp op l r t) with
    | some idx =>
        (BoundExpr.return_type (.binaryOp op l r t)).map (fun u => .inputRef idx u)
    | none =>
        (rewriteExpr bindings l).bind (fun l' =>
          (rewriteExpr bindings r).map (fun r' => .binaryOp op l' r' t))
  | .typeCast e t =>
    match findBinding bindings (.typeCast e t) with
    | some idx =>
        (BoundExpr.return_type (.typeCast e t)).map (fun u => .inputRef idx u)
    | none => (rewriteExpr bindings e).map (fun e' => .typeCast e' t)
  | .aggFunc f args t =>
    match findBinding bindings (.aggFunc f args t) with
    | some idx =>
        (BoundExpr.return_type (.aggFunc f args t)).map (fun u => .inputRef idx u)
    | none => (rewriteList bindings args).map (fun args' => .aggFunc f args' t)

/-- Rewrites each expression of a list in order (the source's
`for arg in &mut e.exprs { self.rewrite_expr(arg) }` loops). -/
def rewriteList (bindings : List BoundExpr) : List BoundExpr → Option (List BoundExpr)
  | [] => some []
  | e :: es =>
    (rewriteExpr bindings e).bind (fun e' =>
      (rewriteList bindings es).map (fun es' => e' :: es'))

end

/-- `InputRefRewriter::rewrite_internal` (lines 15-42): look the whole
expression up in the binding list; on a hit replace it with
`InputRef(idx, expr.return_type().unwrap())`; on a miss recurse into the
sub-expressions of a composite, and fail fatally (`unreachable!`) on
anything else. -/
def rewriteInternal (bindings : List BoundExpr) (e : BoundExpr) : Option BoundExpr :=
  match findBinding bindings e with
  | some idx => e.return_type.map (fun t => .inputRef idx t)
  | none =>
    match e with
    | .binaryOp op l r t =>
        (rewriteExpr bindings l).bind (fun l' =>
          (rewriteExpr bindings r).map (fun r' => .binaryOp op l' r' t))
    | .typeCast e t => (rewriteExpr bindings e).map (fun e' => .typeCast e' t)
    | .aggFunc f args t =>
        (rewriteList bindings args).map (fun args' => .aggFunc f args' t)
    | _ => none

theorem rewriteExpr_eq_rewriteInternal (bindings : List BoundExpr) :
    ∀ e : BoundExpr,
      (∀ c, e = .columnRef c → rewriteExpr bindings e = rewriteInternal bindings e) ∧
      (∀ op l r t, e = .binaryOp op l r t →
        rewriteExpr bindings e = rewriteInternal bindings e) ∧
      (∀ e0 t, e = .typeCast e0 t → rewriteExpr bindings e = rewriteInternal bindings e) ∧
      (∀ f args t, e = .aggFunc f args t →
        rewriteExpr bindings e = rewriteInternal bindings e) := by
  intro e
  refine ⟨?_, ?_, ?_, ?_⟩ <;> intros <;> subst_vars <;>
    simp only [rewriteExpr, rewriteInternal]

/-- Plan nodes. The four logical operators follow the spec's data model
(each of project/filter/aggregate has exactly one input subtree; a scan has
none); each physical node wraps its logical counterpart 1:1
(`PhysicalProject { logical: LogicalProject }` in
`src/optimizer/plan_node/physical_project.rs`), so it carries the wrapped
logical node's fields. -/
inductive Plan
  | logicalTableScan (table_id : String) (columns : List ColumnCatalog)
  | logicalProject (exprs : List BoundExpr) (input : Plan)
  | logicalFilter (expr : BoundExpr) (input : Plan)
  | logicalAgg (agg_funcs : List BoundExpr) (group_by : List BoundExpr) (input : Plan)
  | physicalTableScan (table_id : String) (columns : List ColumnCatalog)
  | physicalProject (exprs : List BoundExpr) (input : Plan)
  | physicalFilter (expr : BoundExpr) (input : Plan)
  | physicalSimpleAgg (agg_funcs : List BoundExpr) (group_by : List BoundExpr) (input : Plan)
deriving DecidableEq, Repr

/-- The runtime kind of a plan node (what `as_logical_project`,
`as_physical_project`, ... discriminate on). -/
inductive PlanKind
  | logicalTableScan
  | logicalProject
  | logicalFilter
  | logicalAgg
  | physicalTableScan
  | physicalProject
  | physicalFilter
  | physicalSimpleAgg
deriving DecidableEq, Repr

def Plan.kind : Plan → PlanKind
  | .logicalTableScan .. => .logicalTableScan
  | .logicalProject .. => .logicalProject
  | .logicalFilter .. => .logicalFilter
  | .logicalAgg .. => .logicalAgg
  | .physicalTableScan .. => .physicalTableScan
  | .physicalProject .. => .physicalProject
  | .physicalFilter .. => .physicalFilter
  | .physicalSimpleAgg .. => .physicalSimpleAgg

/-- `PlanTreeNode::children`: ordered child sequence, empty for scans, the
single input for unary operators. A physical node delegates to its wrapped
logical node (`physical_project.rs` lines 28-30). -/
def Plan.children : Plan → List Plan
  | .logicalTableScan .. => []
  | .logicalProject _ input => [input]
  | .logicalFilter _ input => [input]
  | .logicalAgg _ _ input => [input]
  | .physicalTableScan .. => []
  | .physicalProject _ input => [input]
  | .physicalFilter _ input => [input]
  | .physicalSimpleAgg _ _ input => [input]

/-- `InputRefRewriter` as a `PlanRewriter`
(`src/optimizer/input_ref_rewriter.rs` lines 63-125). The rewriter's
mutable `bindings` field is threaded explicitly: the pass takes the
bindings of the last visited node and returns the rewritten plan together
with the bindings it leaves behind.

* table scan: sets the bindings to one `ColumnRef` per scan column, returns
  the node unchanged;
* project: rewrites the input first, rewrites its own expressions against
  the input's bindings, then resets the bindings to its *original*
  expressions (`let bindings = plan.exprs()` before the rewrite loop);
* filter: rewrites the input, rewrites the predicate, keeps the input's
  bindings;
* aggregate: rewrites the input, rewrites the aggregate calls and group-by
  keys against the input's bindings, then sets the bindings to the original
  `group_by ++ agg_funcs`.

Physical nodes are never visited by this pass (it runs before physical
planning); reaching one is a fatal dispatch failure, modelled as `none`. -/
def rewritePlan : List BoundExpr → Plan → Option (Plan × List BoundExpr)
  | _, .logicalTableScan n cols =>
      some (.logicalTableScan n cols, cols.map (fun c => .columnRef c))
  | b, .logicalProject exprs input =>
      (rewritePlan b input).bind (fun r =>
        (rewriteList r.2 exprs).map (fun exprs' =>
          (.logicalProject exprs' r.1, exprs)))
  | b, .logicalFilter e input =>
      (rewritePlan b input).bind (fun r =>
        (rewriteExpr r.2 e).map (fun e' => (.logicalFilter e' r.1, r.2)))
  | b, .logicalAgg af gb input =>
      (rewritePlan b input).bind (fun r =>
        (rewriteList r.2 af).bind (fun af' =>
          (rewriteList r.2 gb).map (fun gb' =>
            (.logicalAgg af' gb' r.1, gb ++ af))))
  | _, _ => none

/-- Running the pass from a fresh `InputRefRewriter::default()` (initial
bindings empty). -/
def inputRefRewrite (p : Plan) : Option (Plan × List BoundExpr) :=
  rewritePlan [] p

/-- `PlanTreeNode::clone_with_children`: rebuild a node of the receiver's
kind over a new children sequence. The logical cases are modelled from the
spec ("a reconstruction operation taking a new children sequence and
returning a new node of the same kind"; only `physical_project.rs` is under
`src/`): a scan ignores the children, a unary operator takes the first
child (`none` models the out-of-bounds panic on an empty sequence). The
`physicalProject` case is `src/optimizer/plan_node/physical_project.rs`
lines 32-34: it delegates to the wrapped logical project's
`clone_with_children`, so it rebuilds a *logical* project node (the
delegation is unfolded here). The remaining physical cases, absent from
`src/`, follow the spec's same-kind contract. -/
def clone_with_children : Plan → List Plan → Option Plan
  | .logicalTableScan n cols, _ => some (.logicalTableScan n cols)
  | .logicalProject exprs _, children =>
      children.head?.map (fun c => .logicalProject exprs c)
  | .logicalFilter e _, children =>
      children.head?.map (fun c => .logicalFilter e c)
  | .logicalAgg af gb _, children =>
      children.head?.map (fun c => .logicalAgg af gb c)
  | .physicalTableScan n cols, _ => some (.physicalTableScan n cols)
  | .physicalProject exprs _, children =>
      children.head?.map (fun c => .logicalProject exprs c)
  | .physicalFilter e _, children =>
      children.head?.map (fun c => .physicalFilter e c)
  | .physicalSimpleAgg af gb _, children =>
      children.head?.map (fun c => .physicalSimpleAgg af gb c)

/-! ## Executor compilation (`src/executor/mod.rs`) -/

/-- The composed operator pipeline an `ExecutorBuilder` produces: one
operator per physical node, each holding the expressions it evaluates and
the child operator whose stream it consumes. -/
inductive Executor
  | tableScan (table_id : String) (columns : List ColumnCatalog)
  | project (exprs : List BoundExpr) (child : Executor)
  | filter (expr : BoundExpr) (child : Executor)
  | simpleAgg (agg_funcs : List BoundExpr) (child : Executor)
deriving DecidableEq, Repr

/-- The child-handling step of `visit_physical_project`
(`src/executor/mod.rs` lines 92-102): take the first entry of
`plan.children()` (`first().unwrap()` — `none` on an empty sequence),
compile it recursively (`visit(..).unwrap()` — `none` when compilation has
no rule for it), and wrap the result in a `ProjectExecutor` over
`plan.logical().exprs()`. -/
def visitStepProject (exprs : List BoundExpr) (children : List Plan)
    (recur : Plan → Option Executor) : Option Executor :=
  (children.head?.bind recur).map (fun c => .project exprs c)

/-- The child-handling step of `visit_physical_filter` (lines 104-114). -/
def visitStepFilter (expr : BoundExpr) (children : List Plan)
    (recur : Plan → Option Executor) : Option Executor :=
  (children.head?.bind recur).map (fun c => .filter expr c)

/-- The child-handling step of `visit_physical_simple_agg` (lines 116-126):
note it uses only `plan.logical().agg_funcs()`, never the group-by list. -/
def visitStepSimpleAgg (agg_funcs : List BoundExpr) (children : List Plan)
    (recur : Plan → Option Executor) : Option Executor :=
  (children.head?.bind recur).map (fun c => .simpleAgg agg_funcs c)

/-- `ExecutorBuilder`'s `PlanVisitor` dispatch (`impl PlanVisitor for
ExecutorBuilder`, lines 76-127). Each unary physical node's children
sequence is the singleton `[input]`, so `children().first().unwrap()` is
its input; the step functions above are proved equal to these unfolded
bodies in `visit_eq_visitStep`. Logical nodes have no visitor rule: the
dispatch yields `None` and the builder's `unwrap` turns it into a fatal
error (`none`). -/
def visit : Plan → Option Executor
  | .physicalTableScan n cols => some (.tableScan n cols)
  | .physicalProject exprs input => (visit input).map (fun c => .project exprs c)
  | .physicalFilter e input => (visit input).map (fun c => .filter e c)
  | .physicalSimpleAgg af _ input => (visit input).map (fun c => .simpleAgg af c)
  | _ => none

theorem visit_eq_visitStep :
    (∀ exprs input, visit (.physicalProject exprs input) =
      visitStepProject exprs (Plan.children (.physicalProject exprs input)) visit) ∧
    (∀ e input, visit (.physicalFilter e input) =
      visitStepFilter e (Plan.children (.physicalFilter e input)) visit) ∧
    (∀ af gb input, visit (.physicalSimpleAgg af gb input) =
      visitStepSimpleAgg af (Plan.children (.physicalSimpleAgg af gb input)) visit) := by
  refine ⟨fun _ _ => rfl, fun _ _ => rfl, fun _ _ _ => rfl⟩

/-! ## Accumulators (`src/executor/aggregate/mod.rs`) -/

/-- An accumulator instance. Only the running-sum accumulator exists in the
source; `SumAccumulator::new(return_type)` is parameterised by the
aggregate expression's declared result type (its running state, modelled
from the spec, starts empty). -/
inductive Accumulator
  | sumAcc (data_type : DataType)
deriving DecidableEq, Repr

/-- `create_accumulator` (`src/executor/aggregate/mod.rs` lines 21-35):
`Sum` builds a `SumAccumulator` over the declared result type; `Count`,
`Min` and `Max` hit `todo!()` and a non-aggregate expression hits
`unreachable!` — both fatal, modelled as `none`. -/
def create_accumulator : BoundExpr → Option Accumulator
  | .aggFunc .count _ _ => none
  | .aggFunc .sum _ t => some (.sumAcc t)
  | .aggFunc .min _ _ => none
  | .aggFunc .max _ _ => none
  | _ => none

/-! ## Binder table resolution (`src/binder/table/mod.rs`) -/

/-- `TableCatalog`: what `Catalog::get_table_by_name` hands back. -/
structure TableCatalog where
  name : String
  columns : List ColumnCatalog
deriving DecidableEq, Repr

/-- The catalog, modelled as an association list;
`get_table_by_name` is the first-match lookup. -/
structure Catalog where
  tables : List (String × TableCatalog)
deriving DecidableEq, Repr

def Catalog.get_table_by_name (c : Catalog) (n : String) : Option TableCatalog :=
  (c.tables.find? (fun p => decide (p.1 = n))).map Prod.snd

/-- The binder context's `tables` map (`HashMap<String, TableCatalog>`),
modelled as an association list with at most one entry per key. -/
structure BinderContext where
  tables : List (String × TableCatalog)
deriving DecidableEq, Repr

/-- `HashMap::insert`: bind `k` to `v`, replacing any previous binding. -/
def insertTable (k : String) (v : TableCatalog)
    (m : List (String × TableCatalog)) : List (String × TableCatalog) :=
  (k, v) :: m.filter (fun p => decide (p.1 ≠ k))

structure Binder where
  catalog : Catalog
  context : BinderContext
deriving DecidableEq, Repr

inductive BindError
  | invalidTable (name : String)
deriving DecidableEq, Repr

/-- A `sqlparser` table factor: a (possibly qualified) table name, given as
its dotted components, or any other factor shape (join/derived/...), which
`bind_table_ref` rejects with a panic. -/
inductive TableFactor
  | table (name : List String)
  | unsupported
deriving DecidableEq, Repr

/-- `ObjectName::to_string`: the identifiers joined with dots. -/
def objectNameString (name : List String) : String :=
  String.intercalate "." name

/-- The lookup-and-record tail of `Binder::bind_table_ref`
(`src/binder/table/mod.rs` lines 45-54): look the bare table name up in
the catalog (a miss is `BindError::InvalidTable(table_name)`), record the
hit in `self.context.tables`, and return the catalog entry. -/
def bindLookup (b : Binder) (t : String) : Binder × Except BindError TableCatalog :=
  match b.catalog.get_table_by_name t with
  | none => (b, .error (.invalidTable t))
  | some cat =>
      ({ b with context := { tables := insertTable t cat b.context.tables } }, .ok cat)

/-- `Binder::bind_table_ref` (lines 22-58). The name's qualifier shape is
matched first: one, two or three components select the final component as
the table name (the database/schema components are bound to `_`-prefixed
variables and never used); any other shape — no components, or four or
more — is `BindError::InvalidTable(name.to_string())` before any catalog
access. The mutable `self` is threaded as the returned `Binder`; `none`
models the `panic!` on a non-`Table` factor. -/
def bind_table_ref (b : Binder) :
    TableFactor → Option (Binder × Except BindError TableCatalog)
  | .table name =>
    match name with
    | [t] => some (bindLookup b t)
    | [_s, t] => some (bindLookup b t)
    | [_d, _s, t] => some (bindLookup b t)
    | _ => some (b, .error (.invalidTable (objectNameString name)))
  | .unsupported => none

/-! ## Concrete fixtures used by witnesses and counterexamples -/

/-- A sample `Int32` column, as in the source's rewriter tests. -/
def cSample1 : ColumnCatalog := ⟨"c1", ⟨"c1", .int32⟩⟩

/-- A second sample `Int32` column. -/
def cSample2 : ColumnCatalog := ⟨"c2", ⟨"c2", .int32⟩⟩

/-- The expression `c1 + 1` with declared result type `Int32`. -/
def ePlus : BoundExpr :=
  .binaryOp .plus (.columnRef cSample1) (.constant (.int32 (some 1))) (some .int32)

/-- The expression `(c1 + 1) + 1` with declared result type `Int32`. -/
def ePlusPlus : BoundExpr :=
  .binaryOp .plus ePlus (.constant (.int32 (some 1))) (some .int32)

/-- `c1 + 1` after resolution against a binding list whose entry 0 is `c1`
(or is `c1 + 1`'s own resolved form). -/
def ePlusResolved : BoundExpr :=
  .binaryOp .plus (.inputRef 0 .int32) (.constant (.int32 (some 1))) (some .int32)

/-- `select (c1+1)+1 from (select c1+1 from t)` as a logical plan. -/
def planDouble : Plan :=
  .logicalProject [ePlusPlus]
    (.logicalProject [ePlus] (.logicalTableScan "t" [cSample1]))

/-- `planDouble` after one run of input-reference resolution. -/
def planOnce : Plan :=
  .logicalProject [ePlusResolved]
    (.logicalProject [ePlusResolved] (.logicalTableScan "t" [cSample1]))

/-- `planOnce` after a second run of input-reference resolution. -/
def planTwice : Plan :=
  .logicalProject [.inputRef 0 .int32]
    (.logicalProject [ePlusResolved] (.logicalTableScan "t" [cSample1]))

/-- A sample table catalog entry. -/
def tableSample : TableCatalog := ⟨"t", [cSample1, cSample2]⟩

/-- A binder over a catalog holding only table `t`, with an empty context. -/
def binderSample : Binder := ⟨⟨[("t", tableSample)]⟩, ⟨[]⟩⟩

/-! ## Helper lemmas -/

theorem rewriteList_get? (B : List BoundExpr) :
    ∀ (l l' : List BoundExpr) (k : Nat) (e : BoundExpr),
      rewriteList B l = some l' → l[k]? = some e →
      ∃ e', rewriteExpr B e = some e' ∧ l'[k]? = some e'
  | [], l', k, e => by
    intro h hk
    simp at hk
  | a :: as, l', k, e => by
    intro h hk
    simp only [rewriteList] at h
    cases ha : rewriteExpr B a with
    | none => rw [ha] at h; simp at h
    | some a' =>
      cases has : rewriteList B as with
      | none => rw [ha, has] at h; simp at h
      | some as' =>
        rw [ha, has] at h
        simp only [Option.some_bind, Option.map_some'] at h
        obtain rfl : a' :: as' = l' := by injection h
        cases k with
        | zero =>
          obtain rfl : a = e := by simpa using hk
          exact ⟨a', ha, by simp⟩
        | succ k =>
          obtain ⟨e', he, hg⟩ :=
            rewriteList_get? B as as' k e has (by simpa using hk)
          exact ⟨e', he, by simpa using hg⟩

theorem rewritePlan_project_unfold (b B' : List BoundExpr) (exprs : List BoundExpr)
    (input input' : Plan) (h : rewritePlan b input = some (input', B')) :
    rewritePlan b (.logicalProject exprs input) =
      (rewriteList B' exprs).map
        (fun exprs' => (.logicalProject exprs' input', exprs)) := by
  simp only [rewritePlan, h, Option.some_bind]

theorem rewritePlan_agg_unfold (b B' : List BoundExpr) (af gb : List BoundExpr)
    (input input' : Plan) (h : rewritePlan b input = some (input', B')) :
    rewritePlan b (.logicalAgg af gb input) =
      (rewriteList B' af).bind (fun af' =>
        (rewriteList B' gb).map (fun gb' =>
          (.logicalAgg af' gb' input', gb ++ af))) := by
  simp only [rewritePlan, h, Option.some_bind]

/-! ## Claim theorems -/

/-- C1: for every project node, once the child subtree has been rewritten
(leaving the binding list `B'`), an output expression that is a column
reference with a structurally equal entry in `B'` is replaced by
`InputRef(i, type)`, where `i` is the position of the first structurally
equal entry and `type` is the original expression's declared result type;
an output expression of composite kind with no structurally equal entry
keeps its constructor and only its sub-expressions are rewritten. -/
theorem project_resolves_column_refs
    (b B' Bout : List BoundExpr) (exprs : List BoundExpr)
    (input input' res : Plan)
    (h1 : rewritePlan b input = some (input', B'))
    (h2 : rewritePlan b (.logicalProject exprs input) = some (res, Bout)) :
    ∃ exprs' : List BoundExpr, res = Plan.logicalProject exprs' input' ∧
      (∀ (k i : Nat) (c : ColumnCatalog), exprs[k]? = some (.columnRef c) →
        findBinding B' (.columnRef c) = some i →
        exprs'[k]? = some (.inputRef i c.desc.data_type)) ∧
      (∀ (k : Nat) op l r (t : Option DataType), exprs[k]? = some (.binaryOp op l r t) →
        findBinding B' (.binaryOp op l r t) = none →
        ∃ l' r', rewriteExpr B' l = some l' ∧ rewriteExpr B' r = some r' ∧
          exprs'[k]? = some (.binaryOp op l' r' t)) ∧
      (∀ (k : Nat) (e0 : BoundExpr) (t : DataType), exprs[k]? = some (.typeCast e0 t) →
        findBinding B' (.typeCast e0 t) = none →
        ∃ e0', rewriteExpr B' e0 = some e0' ∧
          exprs'[k]? = some (.typeCast e0' t)) ∧
      (∀ (k : Nat) (f : AggFunc) (args : List BoundExpr) (t : DataType),
        exprs[k]? = some (.aggFunc f args t) →
        findBinding B' (.aggFunc f args t) = none →
        ∃ args', rewriteList B' args = some args' ∧
          exprs'[k]? = some (.aggFunc f args' t)) := by
  rw [rewritePlan_project_unfold b B' exprs input input' h1] at h2
  cases hl : rewriteList B' exprs with
  | none => rw [hl] at h2; simp at h2
  | some exprs' =>
    rw [hl] at h2
    simp only [Option.map_some', Option.some.injEq, Prod.mk.injEq] at h2
    obtain ⟨hres, hBout⟩ := h2
    refine ⟨exprs', hres.symm, ?_, ?_, ?_, ?_⟩
    · intro k i c hk hfind
      obtain ⟨e', he, hg⟩ := rewriteList_get? B' exprs exprs' k _ hl hk
      rw [show rewriteExpr B' (.columnRef c) =
            some (.inputRef i c.desc.data_type) by
          simp [rewriteExpr, hfind, BoundExpr.return_type]] at he
      obtain rfl : BoundExpr.inputRef i c.desc.data_type = e' := by injection he
      exact hg
    · intro k op l r t hk hfind
      obtain ⟨e', he, hg⟩ := rewriteList_get? B' exprs exprs' k _ hl hk
      rw [show rewriteExpr B' (.binaryOp op l r t) =
            (rewriteExpr B' l).bind (fun l' =>
              (rewriteExpr B' r).map (fun r' => .binaryOp op l' r' t)) by
          simp [rewriteExpr, hfind]] at he
      cases hml : rewriteExpr B' l with
      | none => rw [hml] at he; simp at he
      | some l' =>
        cases hmr : rewriteExpr B' r with
        | none => rw [hml, hmr] at he; simp at he
        | some r' =>
          rw [hml, hmr] at he
          simp only [Option.some_bind, Option.map_some'] at he
          obtain rfl : BoundExpr.binaryOp op l' r' t = e' := by injection he
          exact ⟨l', r', rfl, rfl, hg⟩
    · intro k e0 t hk hfind
      obtain ⟨e', he, hg⟩ := rewriteList_get? B' exprs exprs' k _ hl hk
      rw [show rewriteExpr B' (.typeCast e0 t) =
            (rewriteExpr B' e0).map (fun e0' => .typeCast e0' t) by
          simp [rewriteExpr, hfind]] at he
      cases hme : rewriteExpr B' e0 with
      | none => rw [hme] at he; simp at he
      | some e0' =>
        rw [hme] at he
        simp only [Option.map_some'] at he
        obtain rfl : BoundExpr.typeCast e0' t = e' := by injection he
        exact ⟨e0', rfl, hg⟩
    · intro k f args t hk hfind
      obtain ⟨e', he, hg⟩ := rewriteList_get? B' exprs exprs' k _ hl hk
      rw [show rewriteExpr B' (.aggFunc f args t) =
            (rewriteList B' args).map (fun args' => .aggFunc f args' t) by
          simp [rewriteExpr, hfind]] at he
      cases hma : rewriteList B' args with
      | none => rw [hma] at he; simp at he
      | some args' =>
        rw [hma] at he
        simp only [Option.map_some'] at he
        obtain rfl : BoundExpr.aggFunc f args' t = e' := by injection he
        exact ⟨args', rfl, hg⟩

/-- C1 witness: the source's own first rewriter test shape (project of `c2`
over a scan of `[c1, c2]`): the column reference is replaced by
`InputRef(1, Int32)`. -/
theorem project_resolves_column_refs_witness :
    rewritePlan [] (Plan.logicalTableScan "t" [cSample1, cSample2]) =
      some (Plan.logicalTableScan "t" [cSample1, cSample2],
        [BoundExpr.columnRef cSample1, BoundExpr.columnRef cSample2]) ∧
    rewritePlan [] (Plan.logicalProject [BoundExpr.columnRef cSample2]
        (Plan.logicalTableScan "t" [cSample1, cSample2])) =
      some (Plan.logicalProject [BoundExpr.inputRef 1 DataType.int32]
          (Plan.logicalTableScan "t" [cSample1, cSample2]),
        [BoundExpr.columnRef cSample2]) ∧
    (∃ exprs' : List BoundExpr,
      Plan.logicalProject [BoundExpr.inputRef 1 DataType.int32]
          (Plan.logicalTableScan "t" [cSample1, cSample2]) =
        Plan.logicalProject exprs' (Plan.logicalTableScan "t" [cSample1, cSample2]) ∧
      (∀ (k i : Nat) (c : ColumnCatalog),
        [BoundExpr.columnRef cSample2][k]? = some (.columnRef c) →
        findBinding [BoundExpr.columnRef cSample1, BoundExpr.columnRef cSample2]
          (.columnRef c) = some i →
        exprs'[k]? = some (.inputRef i c.desc.data_type)) ∧
      (∀ (k : Nat) op l r (t : Option DataType),
        [BoundExpr.columnRef cSample2][k]? = some (.binaryOp op l r t) →
        findBinding [BoundExpr.columnRef cSample1, BoundExpr.columnRef cSample2]
          (.binaryOp op l r t) = none →
        ∃ l' r', rewriteExpr [BoundExpr.columnRef cSample1, BoundExpr.columnRef cSample2] l = some l' ∧
          rewriteExpr [BoundExpr.columnRef cSample1, BoundExpr.columnRef cSample2] r = some r' ∧
          exprs'[k]? = some (.binaryOp op l' r' t)) ∧
      (∀ (k : Nat) (e0 : BoundExpr) (t : DataType),
        [BoundExpr.columnRef cSample2][k]? = some (.typeCast e0 t) →
        findBinding [BoundExpr.columnRef cSample1, BoundExpr.columnRef cSample2]
          (.typeCast e0 t) = none →
        ∃ e0', rewriteExpr [BoundExpr.columnRef cSample1, BoundExpr.columnRef cSample2] e0 = some e0' ∧
          exprs'[k]? = some (.typeCast e0' t)) ∧
      (∀ (k : Nat) (f : AggFunc) (args : List BoundExpr) (t : DataType),
        [BoundExpr.columnRef cSample2][k]? = some (.aggFunc f args t) →
        findBinding [BoundExpr.columnRef cSample1, BoundExpr.columnRef cSample2]
          (.aggFunc f args t) = none →
        ∃ args', rewriteList [BoundExpr.columnRef cSample1, BoundExpr.columnRef cSample2] args = some args' ∧
          exprs'[k]? = some (.aggFunc f args' t))) :=
  ⟨rfl, rfl,
    project_resolves_column_refs []
      [BoundExpr.columnRef cSample1, BoundExpr.columnRef cSample2]
      [BoundExpr.columnRef cSample2] [BoundExpr.columnRef cSample2]
      (Plan.logicalTableScan "t" [cSample1, cSample2])
      (Plan.logicalTableScan "t" [cSample1, cSample2])
      (Plan.logicalProject [BoundExpr.inputRef 1 DataType.int32]
        (Plan.logicalTableScan "t" [cSample1, cSample2])) rfl rfl⟩

/-- C2: for every simple-aggregate node, the binding list the pass leaves
behind is the node's original `group_by ++ agg_funcs` concatenation (in
that order), while the aggregate-function expressions (and the group-by
keys) are rewritten against `B'`, the binding list produced by rewriting
the aggregate's input subtree first — not against the aggregate's own
output bindings. -/
theorem agg_bindings_and_resolution
    (b B' Bout : List BoundExpr) (af gb : List BoundExpr)
    (input input' res : Plan)
    (h1 : rewritePlan b input = some (input', B'))
    (h2 : rewritePlan b (.logicalAgg af gb input) = some (res, Bout)) :
    Bout = gb ++ af ∧
    ∃ af' gb' : List BoundExpr,
      rewriteList B' af = some af' ∧ rewriteList B' gb = some gb' ∧
      res = Plan.logicalAgg af' gb' input' := by
  rw [rewritePlan_agg_unfold b B' af gb input input' h1] at h2
  cases ha : rewriteList B' af with
  | none => rw [ha] at h2; simp at h2
  | some af' =>
    cases hg : rewriteList B' gb with
    | none => rw [ha, hg] at h2; simp at h2
    | some gb' =>
      rw [ha, hg] at h2
      simp only [Option.some_bind, Option.map_some', Option.some.injEq,
        Prod.mk.injEq] at h2
      obtain ⟨hres, hBout⟩ := h2
      exact ⟨hBout.symm, af', gb', rfl, rfl, hres.symm⟩

/-- C2 witness: the source's second rewriter test shape (`sum(c1)` over a
scan of `[c1, c2]`): the post-rewrite binding list is `[] ++ [sum(c1)]` and
the aggregate argument is resolved to `InputRef(0)` against the scan's
bindings. -/
theorem agg_bindings_and_resolution_witness :
    rewritePlan [] (Plan.logicalTableScan "t" [cSample1, cSample2]) =
      some (Plan.logicalTableScan "t" [cSample1, cSample2],
        [BoundExpr.columnRef cSample1, BoundExpr.columnRef cSample2]) ∧
    rewritePlan [] (Plan.logicalAgg
        [BoundExpr.aggFunc .sum [BoundExpr.columnRef cSample1] .int32] []
        (Plan.logicalTableScan "t" [cSample1, cSample2])) =
      some (Plan.logicalAgg
          [BoundExpr.aggFunc .sum [BoundExpr.inputRef 0 .int32] .int32] []
          (Plan.logicalTableScan "t" [cSample1, cSample2]),
        [BoundExpr.aggFunc .sum [BoundExpr.columnRef cSample1] .int32]) ∧
    ([BoundExpr.aggFunc .sum [BoundExpr.columnRef cSample1] .int32] =
      ([] : List BoundExpr) ++ [BoundExpr.aggFunc .sum [BoundExpr.columnRef cSample1] .int32] ∧
    ∃ af' gb' : List BoundExpr,
      rewriteList [BoundExpr.columnRef cSample1, BoundExpr.columnRef cSample2]
        [BoundExpr.aggFunc .sum [BoundExpr.columnRef cSample1] .int32] = some af' ∧
      rewriteList [BoundExpr.columnRef cSample1, BoundExpr.columnRef cSample2]
        ([] : List BoundExpr) = some gb' ∧
      Plan.logicalAgg
          [BoundExpr.aggFunc .sum [BoundExpr.inputRef 0 .int32] .int32] []
          (Plan.logicalTableScan "t" [cSample1, cSample2]) =
        Plan.logicalAgg af' gb' (Plan.logicalTableScan "t" [cSample1, cSample2])) :=
  ⟨rfl, rfl, agg_bindings_and_resolution []
      [BoundExpr.columnRef cSample1, BoundExpr.columnRef cSample2]
      [BoundExpr.aggFunc .sum [BoundExpr.columnRef cSample1] .int32]
      [BoundExpr.aggFunc .sum [BoundExpr.columnRef cSample1] .int32] []
      (Plan.logicalTableScan "t" [cSample1, cSample2])
      (Plan.logicalTableScan "t" [cSample1, cSample2])
      (Plan.logicalAgg
        [BoundExpr.aggFunc .sum [BoundExpr.inputRef 0 .int32] .int32] []
        (Plan.logicalTableScan "t" [cSample1, cSample2])) rfl rfl⟩

/-- C3: for every project node, the pass rewrites the child subtree first
(its result and bindings `B'` come from `rewritePlan b input`), rewrites
the project's output expressions against `B'`, and leaves as binding list
the project's original, pre-rewrite output expressions — not the rewritten
ones. -/
theorem project_resets_bindings_to_original
    (b B' Bout : List BoundExpr) (exprs : List BoundExpr)
    (input input' res : Plan)
    (h1 : rewritePlan b input = some (input', B'))
    (h2 : rewritePlan b (.logicalProject exprs input) = some (res, Bout)) :
    Bout = exprs ∧
    ∃ exprs' : List BoundExpr,
      rewriteList B' exprs = some exprs' ∧ res = Plan.logicalProject exprs' input' := by
  rw [rewritePlan_project_unfold b B' exprs input input' h1] at h2
  cases hl : rewriteList B' exprs with
  | none => rw [hl] at h2; simp at h2
  | some exprs' =>
    rw [hl] at h2
    simp only [Option.map_some', Option.some.injEq, Prod.mk.injEq] at h2
    obtain ⟨hres, hBout⟩ := h2
    exact ⟨hBout.symm, exprs', rfl, hres.symm⟩

/-- C3 witness: after rewriting a project of `c1 + 1` over a scan, the
binding list is the original expression `c1 + 1`, not its rewritten form
`InputRef(0) + 1`. -/
theorem project_resets_bindings_to_original_witness :
    rewritePlan [] (Plan.logicalTableScan "t" [cSample1]) =
      some (Plan.logicalTableScan "t" [cSample1], [BoundExpr.columnRef cSample1]) ∧
    rewritePlan [] (Plan.logicalProject [ePlus] (Plan.logicalTableScan "t" [cSample1])) =
      some (Plan.logicalProject [ePlusResolved]
          (Plan.logicalTableScan "t" [cSample1]), [ePlus]) ∧
    ([ePlus] = [ePlus] ∧
    ∃ exprs' : List BoundExpr,
      rewriteList [BoundExpr.columnRef cSample1] [ePlus] = some exprs' ∧
      Plan.logicalProject [ePlusResolved] (Plan.logicalTableScan "t" [cSample1]) =
        Plan.logicalProject exprs' (Plan.logicalTableScan "t" [cSample1])) :=
  ⟨rfl, rfl, project_resets_bindings_to_original []
      [BoundExpr.columnRef cSample1] [ePlus] [ePlus]
      (Plan.logicalTableScan "t" [cSample1])
      (Plan.logicalTableScan "t" [cSample1])
      (Plan.logicalProject [ePlusResolved]
        (Plan.logicalTableScan "t" [cSample1])) rfl rfl⟩

/-- C4 counterexample: re-running input-reference resolution is not a
no-op. On `select (c1+1)+1 from (select c1+1 from t)` the first run
resolves both projects to `InputRef(0) + 1`; the second run finds the upper
project's rewritten expression structurally equal to the lower project's
(rewritten) binding entry and collapses it to `InputRef(0)`, so the twice-
rewritten tree differs from the once-rewritten tree. -/
theorem rerun_not_noop :
    inputRefRewrite planDouble = some (planOnce, [ePlusPlus]) ∧
    inputRefRewrite planOnce = some (planTwice, [ePlusResolved]) ∧
    planTwice ≠ planOnce :=
  ⟨rfl, rfl, by decide⟩

/-- C4 (amended): a second run of the pass leaves every expression that is
already an `InputRef` or a constant unchanged (the dispatch never touches
those kinds), but the pass is not idempotent in general: any composite
expression — such as a rewritten one — that structurally equals an entry of
the binding list in force is replaced by an `InputRef` again. -/
theorem rerun_stable_on_resolved_atoms (B : List BoundExpr) :
    (∀ (i : Nat) (t : DataType), rewriteExpr B (.inputRef i t) = some (.inputRef i t)) ∧
    (∀ v : ScalarValue, rewriteExpr B (.constant v) = some (.constant v)) ∧
    (∀ op l r (t : Option DataType) (i : Nat) (u : DataType),
      findBinding B (.binaryOp op l r t) = some i →
      (BoundExpr.binaryOp op l r t).return_type = some u →
      rewriteExpr B (.binaryOp op l r t) = some (.inputRef i u)) := by
  refine ⟨fun _ _ => rfl, fun _ => rfl, fun op l r t i u hfind ht => ?_⟩
  simp [rewriteExpr, hfind, ht]

/-- C4 amended-claim witness: on the concrete double-project plan, the
second run keeps `InputRef(0)` and the constant `1` as they are, and
replaces the composite `InputRef(0) + 1` (found at position 0 of the lower
project's binding list) by `InputRef(0, Int32)`. -/
theorem rerun_stable_on_resolved_atoms_witness :
    (rewriteExpr [ePlusResolved] (.inputRef 0 .int32) = some (.inputRef 0 .int32)) ∧
    (rewriteExpr [ePlusResolved] (.constant (.int32 (some 1))) =
      some (.constant (.int32 (some 1)))) ∧
    (findBinding [ePlusResolved]
        (.binaryOp .plus (.inputRef 0 .int32) (.constant (.int32 (some 1)))
          (some .int32)) = some 0 ∧
      (BoundExpr.binaryOp .plus (.inputRef 0 .int32) (.constant (.int32 (some 1)))
          (some .int32)).return_type = some .int32 ∧
      rewriteExpr [ePlusResolved]
          (.binaryOp .plus (.inputRef 0 .int32) (.constant (.int32 (some 1)))
            (some .int32)) = some (.inputRef 0 .int32)) :=
  ⟨(rerun_stable_on_resolved_atoms [ePlusResolved]).1 0 .int32,
    (rerun_stable_on_resolved_atoms [ePlusResolved]).2.1 (.int32 (some 1)),
    by decide, by decide,
    (rerun_stable_on_resolved_atoms [ePlusResolved]).2.2 .plus _ _ _ 0 .int32
      (by decide) (by decide)⟩

/-- C5: `PhysicalProject::clone_with_children` does NOT return a node of
the receiver's kind. Evaluated at a physical project over a physical scan:
the receiver's kind is `physicalProject`, yet the reconstructed node's kind
is `logicalProject` — the method delegates to the wrapped logical node's
reconstruction instead of re-wrapping it. -/
theorem physical_project_clone_loses_kind :
    (Plan.physicalProject [BoundExpr.inputRef 0 .int32]
        (Plan.physicalTableScan "t" [cSample1])).kind = PlanKind.physicalProject ∧
    (clone_with_children
        (Plan.physicalProject [BoundExpr.inputRef 0 .int32]
          (Plan.physicalTableScan "t" [cSample1]))
        [Plan.physicalTableScan "t" [cSample1]]).map Plan.kind =
      some PlanKind.logicalProject ∧
    PlanKind.logicalProject ≠ PlanKind.physicalProject :=
  ⟨rfl, rfl, by decide⟩

/-- C6 counterexample: the executor compiler does not fail on a node with
more than one child. Handed a two-element children sequence, the project
compilation step succeeds, silently building the operator over the first
child and ignoring the second. -/
theorem multi_child_project_compiles :
    visitStepProject [BoundExpr.inputRef 0 .int32]
        [Plan.physicalTableScan "a" [cSample1], Plan.physicalTableScan "b" [cSample2]]
        visit =
      some (Executor.project [BoundExpr.inputRef 0 .int32]
        (Executor.tableScan "a" [cSample1])) ∧
    [Plan.physicalTableScan "a" [cSample1],
      Plan.physicalTableScan "b" [cSample2]].length = 2 :=
  ⟨rfl, rfl⟩

/-- C6 (amended): for the unary physical node kinds (project, filter,
simple aggregate) the executor compiler fails fatally when the node's
children sequence is empty, but with one or more children it builds the
operator from the first child and ignores any others; on the plan
representation each such node's children sequence is the singleton holding
its input, and the compiler consumes exactly that first child. -/
theorem unary_executor_child_handling :
    (∀ (exprs : List BoundExpr) (recur : Plan → Option Executor),
      visitStepProject exprs [] recur = none) ∧
    (∀ (exprs : List BoundExpr) (c : Plan) (cs : List Plan)
        (recur : Plan → Option Executor),
      visitStepProject exprs (c :: cs) recur =
        (recur c).map (fun ch => Executor.project exprs ch)) ∧
    (∀ (e : BoundExpr) (recur : Plan → Option Executor),
      visitStepFilter e [] recur = none) ∧
    (∀ (e : BoundExpr) (c : Plan) (cs : List Plan)
        (recur : Plan → Option Executor),
      visitStepFilter e (c :: cs) recur =
        (recur c).map (fun ch => Executor.filter e ch)) ∧
    (∀ (af : List BoundExpr) (recur : Plan → Option Executor),
      visitStepSimpleAgg af [] recur = none) ∧
    (∀ (af : List BoundExpr) (c : Plan) (cs : List Plan)
        (recur : Plan → Option Executor),
      visitStepSimpleAgg af (c :: cs) recur =
        (recur c).map (fun ch => Executor.simpleAgg af ch)) ∧
    (∀ (exprs : List BoundExpr) (input : Plan),
      visit (.physicalProject exprs input) =
        visitStepProject exprs (Plan.children (.physicalProject exprs input)) visit) ∧
    (∀ (e : BoundExpr) (input : Plan),
      visit (.physicalFilter e input) =
        visitStepFilter e (Plan.children (.physicalFilter e input)) visit) ∧
    (∀ (af gb : List BoundExpr) (input : Plan),
      visit (.physicalSimpleAgg af gb input) =
        visitStepSimpleAgg af (Plan.children (.physicalSimpleAgg af gb input)) visit) :=
  ⟨fun _ _ => rfl, fun _ _ _ _ => rfl, fun _ _ => rfl, fun _ _ _ _ => rfl,
    fun _ _ => rfl, fun _ _ _ _ => rfl, fun _ _ => rfl, fun _ _ => rfl,
    fun _ _ _ => rfl⟩

/-- C7: a table factor whose object name has four or more dotted components
is rejected as `InvalidTable` carrying the full dotted name, uniformly in
the binder (so no catalog lookup can influence the result) and with the
binder state unchanged; a name with one, two or three components proceeds
to the catalog-lookup tail `bindLookup` on its final component. -/
theorem table_name_qualifier_shapes (b : Binder) :
    (∀ name : List String, 4 ≤ name.length →
      bind_table_ref b (.table name) =
        some (b, .error (.invalidTable (objectNameString name)))) ∧
    (∀ t : String, bind_table_ref b (.table [t]) = some (bindLookup b t)) ∧
    (∀ s t : String, bind_table_ref b (.table [s, t]) = some (bindLookup b t)) ∧
    (∀ d s t : String, bind_table_ref b (.table [d, s, t]) = some (bindLookup b t)) := by
  refine ⟨?_, fun _ => rfl, fun _ _ => rfl, fun _ _ _ => rfl⟩
  intro name h
  match name with
  | [] => exact absurd h (by simp)
  | [a] => exact absurd h (by simp)
  | [a, b2] => exact absurd h (by simp)
  | [a, b2, c] => exact absurd h (by simp)
  | a :: b2 :: c :: d :: rest => rfl

/-- C7 witness: binding `a.b.c.d` against the sample binder is rejected
with `InvalidTable "a.b.c.d"` and leaves the binder unchanged. -/
theorem table_name_qualifier_shapes_witness :
    4 ≤ (["a", "b", "c", "d"] : List String).length ∧
    bind_table_ref binderSample (.table ["a", "b", "c", "d"]) =
      some (binderSample,
        .error (.invalidTable (objectNameString ["a", "b", "c", "d"]))) :=
  ⟨by decide,
    (table_name_qualifier_shapes binderSample).1 ["a", "b", "c", "d"] (by decide)⟩

/-- C8: `create_accumulator` fails fatally (the source's `todo!()`) for the
count, min and max aggregate kinds — no accumulator object is produced at
all, so nothing can yield a default or zero value — while the sum kind
yields a `SumAccumulator` parameterised by the expression's declared result
type. -/
theorem unimplemented_accumulators_fail (args : List BoundExpr) (t : DataType) :
    create_accumulator (.aggFunc .count args t) = none ∧
    create_accumulator (.aggFunc .min args t) = none ∧
    create_accumulator (.aggFunc .max args t) = none ∧
    create_accumulator (.aggFunc .sum args t) = some (.sumAcc t) :=
  ⟨rfl, rfl, rfl, rfl⟩

/-- C9: binding a three-component `db.schema.t` or a two-component
`schema.t` name gives exactly the same result (catalog lookup, recorded
context entry, returned catalog and error payloads included) as binding the
bare table name `t`: the database and schema components are discarded. -/
theorem qualified_name_uses_final_component (b : Binder) (d s t : String) :
    bind_table_ref b (.table [d, s, t]) = bind_table_ref b (.table [t]) ∧
    bind_table_ref b (.table [s, t]) = bind_table_ref b (.table [t]) :=
  ⟨rfl, rfl⟩

/-- C10: `bind_table_ref` is atomic with respect to the binder context: on
any error result (bad qualifier shape or failed catalog lookup) the binder
comes back unchanged, and on success the final name component was looked up
in the catalog and exactly one entry binding it to the found table catalog
is inserted into the context's table map (the catalog itself is untouched). -/
theorem bind_table_ref_atomic (b : Binder) (name : List String) (b' : Binder)
    (res : Except BindError TableCatalog)
    (h : bind_table_ref b (.table name) = some (b', res)) :
    (∀ e : BindError, res = .error e → b' = b) ∧
    (∀ cat : TableCatalog, res = .ok cat → ∃ t : String,
      name.getLast? = some t ∧
      b.catalog.get_table_by_name t = some cat ∧
      b' = { b with context := { tables := insertTable t cat b.context.tables } }) := by
  have main : ∀ t0 : String, some (bindLookup b t0) = some (b', res) →
      (∀ e : BindError, res = .error e → b' = b) ∧
      (∀ cat : TableCatalog, res = .ok cat →
        b.catalog.get_table_by_name t0 = some cat ∧
        b' = { b with context := { tables := insertTable t0 cat b.context.tables } }) := by
    intro t0 h0
    simp only [Option.some.injEq] at h0
    unfold bindLookup at h0
    cases hcat : b.catalog.get_table_by_name t0 with
    | none =>
      rw [hcat] at h0
      injection h0 with hb hr
      subst hb; subst hr
      exact ⟨fun _ _ => rfl, fun cat hcat' => (by cases hcat')⟩
    | some cat0 =>
      rw [hcat] at h0
      injection h0 with hb hr
      subst hb; subst hr
      refine ⟨fun e he => (by cases he), ?_⟩
      intro cat hok
      obtain rfl : cat0 = cat := by cases hok; rfl
      exact ⟨rfl, rfl⟩
  match name with
  | [t0] =>
    obtain ⟨h1, h2⟩ := main t0 h
    exact ⟨h1, fun cat hc => ⟨t0, rfl, (h2 cat hc).1, (h2 cat hc).2⟩⟩
  | [s0, t0] =>
    obtain ⟨h1, h2⟩ := main t0 h
    exact ⟨h1, fun cat hc => ⟨t0, rfl, (h2 cat hc).1, (h2 cat hc).2⟩⟩
  | [d0, s0, t0] =>
    obtain ⟨h1, h2⟩ := main t0 h
    exact ⟨h1, fun cat hc => ⟨t0, rfl, (h2 cat hc).1, (h2 cat hc).2⟩⟩
  | [] =>
    simp only [bind_table_ref, Option.some.injEq] at h
    injection h with hb hr
    subst hb; subst hr
    exact ⟨fun _ _ => rfl, fun cat hc => by cases hc⟩
  | a :: b2 :: c :: d :: rest =>
    simp only [bind_table_ref, Option.some.injEq] at h
    injection h with hb hr
    subst hb; subst hr
    exact ⟨fun _ _ => rfl, fun cat hc => by cases hc⟩

/-- C10 witness: binding `t` against the sample binder succeeds, returning
the sample table catalog and inserting exactly the entry
`("t", tableSample)` into the previously empty context map. -/
theorem bind_table_ref_atomic_witness :
    bind_table_ref binderSample (.table ["t"]) =
      some (Binder.mk binderSample.catalog
          ⟨insertTable "t" tableSample binderSample.context.tables⟩,
        .ok tableSample) ∧
    (∀ e : BindError, (Except.ok tableSample : Except BindError TableCatalog) = .error e →
      Binder.mk binderSample.catalog
          ⟨insertTable "t" tableSample binderSample.context.tables⟩ =
        binderSample) ∧
    (∀ cat : TableCatalog,
      (Except.ok tableSample : Except BindError TableCatalog) = .ok cat → ∃ t : String,
      (["t"] : List String).getLast? = some t ∧
      binderSample.catalog.get_table_by_name t = some cat ∧
      Binder.mk binderSample.catalog
          ⟨insertTable "t" tableSample binderSample.context.tables⟩ =
        { binderSample with
          context := { tables := insertTable t cat binderSample.context.tables } }) :=
  ⟨rfl,
    (bind_table_ref_atomic binderSample ["t"]
      (Binder.mk binderSample.catalog
        ⟨insertTable "t" tableSample binderSample.context.tables⟩)
      (.ok tableSample) rfl).1,
    (bind_table_ref_atomic binderSample ["t"]
      (Binder.mk binderSample.catalog
        ⟨insertTable "t" tableSample binderSample.context.tables⟩)
      (.ok tableSample) rfl).2⟩
end SQE
